import Mathlib

/-!
# notification_center: a verification development

Shallow embedding of `src/notification_center.h` (namespace `ds`).

* A raw pointer (`void *`) and a `std::shared_ptr<Observable>` handle are both
  modelled by `Ptr := Option Nat`: `none` is `nullptr`, `some a` is the object
  at address `a`.
* `std::vector<observer_>` is a `List observer_`; an iterator is a position in
  that list, and `end() - it` is the length of the suffix starting at `it`.
* Calling an observer is an effect of the environment; it is recorded in a log
  of `Call`s (which object was called, with which `Notification`).
* Operations whose C++ behaviour is undefined on some path (dereferencing a
  null handle, erasing at an iterator outside `[begin, end)`) return `Option`
  and yield `none` on that path.
* The mutex is not modelled: the embedding is the sequential semantics.
-/

namespace ds

/-- Pointers and shared handles: `none` is `nullptr`. -/
abbrev Ptr := Option Nat

/-- The class `Notification` (lines 35-54): fields `obj_` and `tag_`. -/
structure Notification where
  obj_ : Ptr
  tag_ : String
  deriving DecidableEq, Repr

namespace Notification

/-- Default constructor `Notification() : obj_(nullptr), tag_("")`. -/
def ctor0 : Notification := { obj_ := none, tag_ := "" }

/-- Accessor `get_object()`. -/
def get_object (n : Notification) : Ptr := n.obj_

/-- Mutator `set_object(blob)`: `obj_ = (void *) blob`. -/
def set_object (n : Notification) (blob : Ptr) : Notification := { n with obj_ := blob }

/-- Accessor `get_tag()`. -/
def get_tag (n : Notification) : String := n.tag_

/-- Mutator `set_tag(tag)`: `tag_ = tag`. -/
def set_tag (n : Notification) (tag : String) : Notification := { n with tag_ := tag }

/-- Constructor `Notification(tag, blob) : tag_(tag) { set_object(blob); }`.
The field `obj_` has no initialiser; it is written by `set_object` before it
can be read, so the value it starts from (here `none`) is never observed. -/
def ctor (tag : String) (blob : Ptr) : Notification :=
  set_object { obj_ := none, tag_ := tag } blob

end Notification

/-- One observer invocation: the `Observable` object that was called and the
`Notification` it received. -/
structure Call where
  target : Nat
  arg : Notification
  deriving DecidableEq, Repr

/-- The expression `(*f)(n)` for a handle `f`: dereferencing a null handle is
undefined (`none`); otherwise the call is appended to the log. -/
def Observable.call (f : Ptr) (n : Notification) (log : List Call) : Option (List Call) :=
  match f with
  | none => none
  | some a => some (log ++ [{ target := a, arg := n }])

/-- The alias `observer_ = std::pair<std::string, std::shared_ptr<Observable>>`. -/
abbrev observer_ := String × Ptr

/-- The class `NotificationCenter`: its data member `observers_`. -/
structure NotificationCenter where
  observers_ : List observer_
  deriving DecidableEq, Repr

namespace NotificationCenter

/-- Constructor `NotificationCenter() {}`: the vector starts empty. -/
def ctor : NotificationCenter := { observers_ := [] }

/-- Member `AddObserver(id, f)`: `observers_.emplace_back(id, f)`. -/
def AddObserver (c : NotificationCenter) (id : String) (f : Ptr) : NotificationCenter :=
  { c with observers_ := c.observers_ ++ [(id, f)] }

/-- The lambda passed to `std::for_each` in `PostNotification` (lines 94-101),
applied to one element `obj`, threading the call log. -/
def PostNotification.visit (id : String) (object : Ptr) (log : List Call) (obj : observer_) :
    Option (List Call) :=
  if obj.1 = id then
    if obj.2 ≠ none then
      let notif := Notification.ctor id object
      Observable.call obj.2 notif log
    else some log
  else some log

/-- The call `std::for_each(begin, end, lambda)`: the lambda is applied to the
elements from first to last. -/
def PostNotification.for_each (id : String) (object : Ptr) :
    List observer_ → List Call → Option (List Call)
  | [], log => some log
  | obj :: rest, log =>
    match PostNotification.visit id object log obj with
    | none => none
    | some log1 => PostNotification.for_each id object rest log1

/-- Member `PostNotification(id, object)`: returns the center after the call
and the observer invocations performed, in order. -/
def PostNotification (c : NotificationCenter) (id : String) (object : Ptr) :
    Option (NotificationCenter × List Call) :=
  match PostNotification.for_each id object c.observers_ [] with
  | none => none
  | some log => some (c, log)

/-- First loop of `RemoveObservers` (lines 111-118). The iterator `obj` walks
the vector; at a matching element `observers_.end() - obj`, the number of
elements from `obj` to the end, is pushed to `tmp`. The argument is the part of
the vector from `obj` on. -/
def RemoveObservers.collect (id : String) : List observer_ → List Nat
  | [] => []
  | obj :: rest =>
    if obj.1 = id then ((obj :: rest).length) :: RemoveObservers.collect id rest
    else RemoveObservers.collect id rest

/-- The position of the iterator `observers_.end() - obj` in a vector of `size`
elements, as a signed offset from `begin()`. -/
def RemoveObservers.position (size obj : Nat) : Int := (size : Int) - (obj : Int)

/-- Second loop of `RemoveObservers` (lines 119-123), instrumented. For each
recorded `obj` of `tmp`, `index = observers_.end() - obj` is computed on the
current vector and `observers_.erase(index)` is run. `erase` needs an iterator
to an element of the vector, `0 ≤ index < size()`; otherwise the behaviour is
undefined (`none`). Returns the final vector and, as ghost output, the erased
elements in order. -/
def RemoveObservers.eraseLoop (v : List observer_) :
    List Nat → Option (List observer_ × List observer_)
  | [] => some (v, [])
  | obj :: tmp =>
    if h : 0 ≤ RemoveObservers.position v.length obj
        ∧ RemoveObservers.position v.length obj < v.length then
      match RemoveObservers.eraseLoop
          (v.eraseIdx (RemoveObservers.position v.length obj).toNat) tmp with
      | none => none
      | some (w, erased) =>
        some (w, v.get ⟨(RemoveObservers.position v.length obj).toNat, by omega⟩ :: erased)
    else none

/-- Body of `RemoveObservers(id)` with the ghost list of erased elements. -/
def RemoveObservers.run (c : NotificationCenter) (id : String) :
    Option (List observer_ × List observer_) :=
  if c.observers_.length < 1 then some (c.observers_, [])
  else
    let tmp := RemoveObservers.collect id c.observers_
    RemoveObservers.eraseLoop c.observers_ tmp

/-- Member `RemoveObservers(id)`: the center after the call, or `none` when an
erase position falls outside the vector. -/
def RemoveObservers (c : NotificationCenter) (id : String) : Option NotificationCenter :=
  match RemoveObservers.run c id with
  | none => none
  | some (w, _) => some { c with observers_ := w }

end NotificationCenter

open NotificationCenter

/-- The registry reached from the empty one by a sequence of `AddObserver`
calls with non-null observers, given as (topic, observer address) pairs. -/
def addAll (adds : List (String × Nat)) : NotificationCenter :=
  adds.foldl (fun c e => c.AddObserver e.1 (some e.2)) NotificationCenter.ctor

/-! ## Auxiliary definitions used in the statements -/

/-- The invocation that `PostNotification(id, object)` performs for one entry:
none when the topic differs or the handle is null. -/
def dispatchOf (id : String) (object : Ptr) (e : observer_) : Option Call :=
  if e.1 = id then e.2.map (fun a => { target := a, arg := Notification.ctor id object })
  else none

/-- Entries of a vector whose topic differs from `id`, in order. -/
def keepOthers (id : String) (v : List observer_) : List observer_ :=
  v.filter (fun e => decide (e.1 ≠ id))

/-- Entries of a vector whose topic equals `id`, in order. -/
def keepTopic (id : String) (v : List observer_) : List observer_ :=
  v.filter (fun e => decide (e.1 = id))

/-- The three ways in which `RemoveObservers(id)` could go wrong on `c`: an
erase position outside the current vector, an erased entry of another topic,
or a surviving entry of topic `id`. -/
def RemoveObservers.misbehaves (c : NotificationCenter) (id : String) : Prop :=
  match RemoveObservers.run c id with
  | none => True
  | some (w, erased) => (∃ e ∈ erased, e.1 ≠ id) ∨ (∃ e ∈ w, e.1 = id)

/-! ## Lock discipline: the accesses each member function performs -/

/-- What a statement does to the mutex `lock_` or to the vector `observers_`:
construct the `lock_guard` (acquire), leave its scope (release), read the
vector, or write it. -/
inductive Access where
  | acquire
  | release
  | read
  | write
  deriving DecidableEq, Repr

/-- Accesses of `AddObserver` in program order (lines 83-85): the `lock_guard`,
`emplace_back`, end of scope. -/
def NotificationCenter.AddObserver.accesses : List Access :=
  [Access.acquire, Access.write, Access.release]

/-- Accesses of `PostNotification` in program order (lines 93-102): the
`lock_guard`, `begin()`/`end()`, one read per element visited by `for_each`,
end of scope. -/
def NotificationCenter.PostNotification.accesses (c : NotificationCenter) : List Access :=
  [Access.acquire, Access.read] ++ c.observers_.map (fun _ => Access.read) ++ [Access.release]

/-- Accesses of `RemoveObservers` in program order (lines 107-124): the test
`observers_.size() < 1` of line 107; then, unless it returned, the `lock_guard`
of line 108, `size()` for `reserve`, one read per element of the first loop,
and `end()` followed by `erase` for every recorded distance; end of scope. -/
def NotificationCenter.RemoveObservers.accesses (c : NotificationCenter) (id : String) :
    List Access :=
  Access.read ::
    (if c.observers_.length < 1 then []
     else
      [Access.acquire, Access.read] ++ c.observers_.map (fun _ => Access.read)
        ++ ((RemoveObservers.collect id c.observers_).map
              (fun _ => [Access.read, Access.write])).flatten
        ++ [Access.release])

/-- Whether every read and write in a sequence of accesses happens while the
lock is held; `held` says whether it is held at the start. -/
def guarded : Bool → List Access → Bool
  | _, [] => true
  | _, Access.acquire :: rest => guarded true rest
  | _, Access.release :: rest => guarded false rest
  | held, Access.read :: rest => held && guarded held rest
  | held, Access.write :: rest => held && guarded held rest

/-! ## Sequences of operations -/

/-- One call on the center. -/
inductive Op where
  | add (id : String) (f : Ptr)
  | post (id : String) (object : Ptr)
  | remove (id : String)
  deriving DecidableEq, Repr

/-- The center after one call, `none` when the call has undefined behaviour. -/
def step (c : NotificationCenter) : Op → Option NotificationCenter
  | Op.add id f => some (c.AddObserver id f)
  | Op.post id object =>
    match c.PostNotification id object with
    | none => none
    | some r => some r.1
  | Op.remove id => c.RemoveObservers id

/-- The center after a sequence of calls, first to last. -/
def runOps (c : NotificationCenter) : List Op → Option NotificationCenter
  | [] => some c
  | op :: ops =>
    match step c op with
    | none => none
    | some c1 => runOps c1 ops

/-! ## Lemmas on the dispatch loop -/

theorem visit_eq (id : String) (object : Ptr) (log : List Call) (obj : observer_) :
    PostNotification.visit id object log obj
      = some (log ++ (dispatchOf id object obj).toList) := by
  obtain ⟨t, f⟩ := obj
  unfold PostNotification.visit dispatchOf
  by_cases ht : t = id
  · cases f with
    | none => simp [ht]
    | some a => simp [ht, Observable.call]
  · simp [ht]

theorem for_each_eq (id : String) (object : Ptr) (v : List observer_) (log : List Call) :
    PostNotification.for_each id object v log
      = some (log ++ v.filterMap (dispatchOf id object)) := by
  induction v generalizing log with
  | nil => simp [PostNotification.for_each]
  | cons obj rest ih =>
    rw [PostNotification.for_each, visit_eq]
    simp only [ih]
    cases h : dispatchOf id object obj <;> simp [List.filterMap_cons, h]

theorem post_eq (c : NotificationCenter) (id : String) (object : Ptr) :
    PostNotification c id object
      = some (c, c.observers_.filterMap (dispatchOf id object)) := by
  unfold PostNotification
  rw [for_each_eq]
  simp

theorem addAll_observers (adds : List (String × Nat)) :
    (addAll adds).observers_ = adds.map (fun e => (e.1, some e.2)) := by
  have key : ∀ (l : List (String × Nat)) (c : NotificationCenter),
      (l.foldl (fun c e => c.AddObserver e.1 (some e.2)) c).observers_
        = c.observers_ ++ l.map (fun e => (e.1, some e.2)) := by
    intro l
    induction l with
    | nil => intro c; simp
    | cons e rest ih =>
      intro c
      rw [List.foldl_cons, ih]
      simp [AddObserver]
  simpa [addAll, NotificationCenter.ctor] using key adds NotificationCenter.ctor

/-! ## Lemmas on the removal loops -/

theorem eraseIdx_append_cons (pre : List observer_) (x : observer_) (rest : List observer_) :
    (pre ++ x :: rest).eraseIdx pre.length = pre ++ rest := by
  induction pre with
  | nil => simp
  | cons p ps ih => simpa using ih

theorem get_append_cons (pre : List observer_) (x : observer_) (rest : List observer_)
    (h : pre.length < (pre ++ x :: rest).length) :
    (pre ++ x :: rest).get ⟨pre.length, h⟩ = x := by
  induction pre with
  | nil => rfl
  | cons p ps ih => simpa using ih (by simp)

/-- Loop invariant of the erase loop: with the distances recorded for the part
`suf` of the vector not yet visited, the loop removes from `pre ++ suf` exactly
the entries of `suf` with topic `id`, whatever `pre` is. -/
theorem eraseLoop_collect (id : String) (suf pre : List observer_) :
    RemoveObservers.eraseLoop (pre ++ suf) (RemoveObservers.collect id suf)
      = some (pre ++ keepOthers id suf, keepTopic id suf) := by
  induction suf generalizing pre with
  | nil => simp [RemoveObservers.collect, RemoveObservers.eraseLoop, keepOthers, keepTopic]
  | cons x rest ih =>
    by_cases hx : x.1 = id
    · have hp : RemoveObservers.position (pre ++ x :: rest).length (x :: rest).length
          = (pre.length : Int) := by
        simp only [RemoveObservers.position, List.length_append, List.length_cons]
        push_cast
        ring
      have hb : 0 ≤ RemoveObservers.position (pre ++ x :: rest).length (x :: rest).length
          ∧ RemoveObservers.position (pre ++ x :: rest).length (x :: rest).length
            < (pre ++ x :: rest).length := by
        rw [hp]
        simp only [List.length_append, List.length_cons]
        omega
      rw [RemoveObservers.collect, if_pos hx, RemoveObservers.eraseLoop, dif_pos hb]
      simp only [hp, Int.toNat_ofNat]
      rw [eraseIdx_append_cons, ih pre]
      have hget := get_append_cons pre x rest (by simp)
      simp only [List.get_eq_getElem] at hget
      simp [keepOthers, keepTopic, hx, hget]
    · rw [RemoveObservers.collect, if_neg hx]
      have := ih (pre ++ [x])
      rw [List.append_assoc] at this
      simp only [List.singleton_append] at this
      rw [this]
      simp [keepOthers, keepTopic, hx]

theorem run_eq (c : NotificationCenter) (id : String) :
    RemoveObservers.run c id
      = some (keepOthers id c.observers_, keepTopic id c.observers_) := by
  unfold RemoveObservers.run
  split
  · have : c.observers_ = [] := by
      cases hc : c.observers_ with
      | nil => rfl
      | cons a b => simp [hc] at *
    simp [this, keepOthers, keepTopic]
  · simpa using eraseLoop_collect id c.observers_ []

theorem remove_eq (c : NotificationCenter) (id : String) :
    RemoveObservers c id = some { observers_ := keepOthers id c.observers_ } := by
  unfold RemoveObservers
  rw [run_eq]

theorem dispatch_added (topic : String) (payload : Ptr) (adds : List (String × Nat)) :
    (adds.map (fun e => ((e.1, some e.2) : observer_))).filterMap (dispatchOf topic payload)
      = (adds.filter (fun e => decide (e.1 = topic))).map
          (fun e => ({ target := e.2, arg := { obj_ := payload, tag_ := topic } } : Call)) := by
  induction adds with
  | nil => rfl
  | cons e rest ih =>
    by_cases he : e.1 = topic
    · simp [List.filterMap_cons, dispatchOf, he, ih, Notification.ctor, Notification.set_object]
    · simp [List.filterMap_cons, dispatchOf, he, ih]

theorem dispatch_keepOthers_same (t : String) (payload : Ptr) (v : List observer_) :
    (keepOthers t v).filterMap (dispatchOf t payload) = [] := by
  induction v with
  | nil => rfl
  | cons e rest ih =>
    by_cases he : e.1 = t
    · simpa [keepOthers, he] using ih
    · have : keepOthers t (e :: rest) = e :: keepOthers t rest := by simp [keepOthers, he]
      rw [this, List.filterMap_cons]
      simp [dispatchOf, he, ih]

theorem dispatch_keepOthers_other (t u : String) (hu : u ≠ t) (payload : Ptr)
    (v : List observer_) :
    (keepOthers t v).filterMap (dispatchOf u payload) = v.filterMap (dispatchOf u payload) := by
  induction v with
  | nil => rfl
  | cons e rest ih =>
    by_cases he : e.1 = t
    · have h1 : keepOthers t (e :: rest) = keepOthers t rest := by simp [keepOthers, he]
      have h2 : dispatchOf u payload e = none := by
        have : ¬ e.1 = u := by rw [he]; exact fun h => hu h.symm
        simp [dispatchOf, this]
      rw [h1, List.filterMap_cons, h2, ih]
    · have h1 : keepOthers t (e :: rest) = e :: keepOthers t rest := by simp [keepOthers, he]
      rw [h1, List.filterMap_cons, List.filterMap_cons, ih]

theorem dispatch_mem (id : String) (payload : Ptr) (v : List observer_) (k : Call)
    (hk : k ∈ v.filterMap (dispatchOf id payload)) :
    ∃ e ∈ v, e.1 = id ∧ e.2 = some k.target ∧ k.arg = Notification.ctor id payload := by
  rw [List.mem_filterMap] at hk
  obtain ⟨e, he, hd⟩ := hk
  refine ⟨e, he, ?_⟩
  unfold dispatchOf at hd
  by_cases ht : e.1 = id
  · rw [if_pos ht] at hd
    cases hf : e.2 with
    | none => simp [hf] at hd
    | some a =>
      simp [hf] at hd
      subst hd
      exact ⟨ht, rfl, rfl⟩
  · simp [ht] at hd

theorem dispatch_entries (topic : String) (payload : Ptr) (v : List observer_) :
    (v.filterMap (dispatchOf topic payload)).map (fun k => ((topic, some k.target) : observer_))
      = v.filter (fun e => decide (e.1 = topic ∧ e.2 ≠ none)) := by
  induction v with
  | nil => rfl
  | cons e rest ih =>
    obtain ⟨t, h⟩ := e
    by_cases ht : t = topic
    · cases h with
      | none => simpa [List.filterMap_cons, dispatchOf, ht] using ih
      | some a =>
        have hd : dispatchOf topic payload (t, some a)
            = some { target := a, arg := Notification.ctor topic payload } := by
          simp [dispatchOf, ht]
        rw [List.filterMap_cons, hd]
        simp only [List.map_cons, ih]
        simp [ht]
    · simpa [List.filterMap_cons, dispatchOf, ht] using ih

theorem keepOthers_idem (id : String) (v : List observer_) :
    keepOthers id (keepOthers id v) = keepOthers id v := by
  unfold keepOthers
  rw [List.filter_filter]
  simp

theorem keepOthers_append_same (id : String) (f : Ptr) (v : List observer_) :
    keepOthers id (v ++ [(id, f)]) = keepOthers id v := by
  simp [keepOthers, List.filter_append]

theorem keepOthers_eq_self (id : String) (v : List observer_) (h : ∀ e ∈ v, e.1 ≠ id) :
    keepOthers id v = v := by
  unfold keepOthers
  rw [List.filter_eq_self]
  intro e he
  simpa using h e he

theorem guarded_reads (n : List observer_) (rest : List Access) :
    guarded true (n.map (fun _ => Access.read) ++ rest) = guarded true rest := by
  induction n with
  | nil => rfl
  | cons e es ih => simpa [guarded] using ih

theorem guarded_erases (tmp : List Nat) (rest : List Access) :
    guarded true ((tmp.map (fun _ => [Access.read, Access.write])).flatten ++ rest)
      = guarded true rest := by
  induction tmp with
  | nil => rfl
  | cons d ds ih => simpa [guarded] using ih

theorem step_entries (c : NotificationCenter) (op : Op) :
    ∃ c1, step c op = some c1
      ∧ ∀ e ∈ c1.observers_, e ∈ c.observers_ ∨ op = Op.add e.1 e.2 := by
  cases op with
  | add id f =>
    refine ⟨_, rfl, ?_⟩
    intro e he
    simp only [AddObserver, List.mem_append, List.mem_singleton] at he
    rcases he with he | he
    · exact Or.inl he
    · subst he
      exact Or.inr rfl
  | post id object =>
    refine ⟨c, ?_, fun e he => Or.inl he⟩
    simp [step, post_eq]
  | remove id =>
    refine ⟨_, remove_eq c id, ?_⟩
    intro e he
    exact Or.inl (List.mem_filter.mp he).1

theorem runOps_entries (ops : List Op) (c : NotificationCenter) :
    ∃ c1, runOps c ops = some c1
      ∧ ∀ e ∈ c1.observers_, e ∈ c.observers_ ∨ Op.add e.1 e.2 ∈ ops := by
  induction ops generalizing c with
  | nil => exact ⟨c, rfl, fun e he => Or.inl he⟩
  | cons op ops ih =>
    obtain ⟨c1, h1, hstep⟩ := step_entries c op
    obtain ⟨c2, h2, hrest⟩ := ih c1
    refine ⟨c2, ?_, ?_⟩
    · simp only [runOps, h1]
      exact h2
    · intro e he
      rcases hrest e he with h | h
      · rcases hstep e h with h | h
        · exact Or.inl h
        · exact Or.inr (by rw [h]; exact List.mem_cons_self _ _)
      · exact Or.inr (List.mem_cons_of_mem _ h)

/-! ## Claims -/

/-- C1: for every registry and topic `id`, `RemoveObservers(id)` returns, and the
registry after it is the original one filtered to the entries whose topic
differs from `id`: a sublist of the original in the original order, holding an
entry exactly when the original holds it and its topic is not `id`. This
includes registries where `id` is interleaved with other topics, as in the
instance A, B, A, B, A. -/
theorem removeObservers_filters (c : NotificationCenter) (id : String) :
    (∃ c1, RemoveObservers c id = some c1
      ∧ c1.observers_ = c.observers_.filter (fun e => decide (e.1 ≠ id))
      ∧ c1.observers_.Sublist c.observers_
      ∧ ∀ e, e ∈ c1.observers_ ↔ (e ∈ c.observers_ ∧ e.1 ≠ id))
    ∧ RemoveObservers
        { observers_ := [("A", some 1), ("B", some 2), ("A", some 3), ("B", some 4), ("A", none)] }
        "A"
      = some { observers_ := [("B", some 2), ("B", some 4)] } := by
  refine ⟨⟨_, remove_eq c id, rfl, ?_, ?_⟩, by decide⟩
  · exact List.filter_sublist _
  · intro e
    simp [keepOthers, List.mem_filter]

/-- C2: starting from the empty registry, after any sequence `adds` of
`AddObserver` calls with non-null observers, `PostNotification(topic, payload)`
returns and invokes exactly the observers added under `topic`, once per
registration and in the order added, each with a `Notification` whose
`get_tag()` is `topic` and whose `get_object()` is `payload`. Instance:
A/obs1, B/obs2, A/obs3 and a post on A invoke obs1 then obs3, not obs2. -/
theorem postNotification_after_adds (adds : List (String × Nat)) (topic : String)
    (payload : Ptr) :
    (∃ log, PostNotification (addAll adds) topic payload = some (addAll adds, log)
      ∧ log.map (fun k => k.target)
          = (adds.filter (fun e => decide (e.1 = topic))).map (fun e => e.2)
      ∧ ∀ k ∈ log, k.arg.get_tag = topic ∧ k.arg.get_object = payload)
    ∧ PostNotification (addAll [("A", 1), ("B", 2), ("A", 3)]) "A" (some 9)
      = some (addAll [("A", 1), ("B", 2), ("A", 3)],
          [{ target := 1, arg := { obj_ := some 9, tag_ := "A" } },
           { target := 3, arg := { obj_ := some 9, tag_ := "A" } }]) := by
  refine ⟨⟨_, post_eq _ _ _, ?_, ?_⟩, by decide⟩
  · rw [addAll_observers, dispatch_added]
    simp [List.map_map, Function.comp_def]
  · intro k hk
    rw [addAll_observers, dispatch_added] at hk
    simp only [List.mem_map] at hk
    obtain ⟨e, _, rfl⟩ := hk
    exact ⟨rfl, rfl⟩

/-- C3 (as stated, refuted): there is no registry and topic on which
`RemoveObservers` computes an erase position outside the current vector, erases
an entry of another topic, or leaves an entry of the removed topic; in
particular none with interleaved topics. -/
theorem removeObservers_never_misbehaves :
    ¬ ∃ (c : NotificationCenter) (id : String), RemoveObservers.misbehaves c id := by
  rintro ⟨c, id, h⟩
  unfold RemoveObservers.misbehaves at h
  rw [run_eq] at h
  rcases h with ⟨e, he, hne⟩ | ⟨e, he, heq⟩
  · exact hne (by simpa using (List.mem_filter.mp he).2)
  · exact (by simpa using (List.mem_filter.mp he).2 : e.1 ≠ id) heq

/-- C3 (amended): for every registry and topic `id`, also with interleaved
topics, the erase loop of `RemoveObservers(id)` runs to completion with every
erase position inside the current vector, every erased entry has topic `id`,
the erased entries are all the entries of topic `id`, and no entry of topic
`id` is left. Instance: on A, B, A, B, A the recorded distances are 5, 3, 1 and
the erased entries are the three A entries. -/
theorem removeObservers_erases_exactly_topic (c : NotificationCenter) (id : String) :
    (∃ w erased, RemoveObservers.run c id = some (w, erased)
      ∧ RemoveObservers c id = some { observers_ := w }
      ∧ (∀ e ∈ erased, e.1 = id)
      ∧ (∀ e ∈ w, e.1 ≠ id)
      ∧ erased = c.observers_.filter (fun e => decide (e.1 = id)))
    ∧ RemoveObservers.collect "A"
        [("A", some 1), ("B", some 2), ("A", some 3), ("B", some 4), ("A", none)] = [5, 3, 1]
    ∧ RemoveObservers.run
        { observers_ := [("A", some 1), ("B", some 2), ("A", some 3), ("B", some 4), ("A", none)] }
        "A"
      = some ([("B", some 2), ("B", some 4)], [("A", some 1), ("A", some 3), ("A", none)]) := by
  refine ⟨⟨_, _, run_eq c id, remove_eq c id, ?_, ?_, rfl⟩, by decide, by decide⟩
  · intro e he
    simpa using (List.mem_filter.mp he).2
  · intro e he
    simpa using (List.mem_filter.mp he).2

/-- C4: for every registry and topic `t`, `RemoveObservers(t)` returns a registry
on which `PostNotification(t, payload)` invokes nobody, and on which, for every
other topic `u`, `PostNotification(u, payload)` performs the same invocations in
the same order as on the registry before the removal. Instance: on A/obs1,
B/obs2, A/obs3, after removing A, posting A invokes nobody and posting B
invokes obs2 once. -/
theorem post_after_removeObservers (c : NotificationCenter) (t : String) (payload : Ptr) :
    (∃ c1, RemoveObservers c t = some c1
      ∧ PostNotification c1 t payload = some (c1, [])
      ∧ ∀ u, u ≠ t → ∃ log, PostNotification c u payload = some (c, log)
          ∧ PostNotification c1 u payload = some (c1, log))
    ∧ (∃ c1, RemoveObservers { observers_ := [("A", some 1), ("B", some 2), ("A", some 3)] } "A"
          = some c1
      ∧ PostNotification c1 "A" (some 9) = some (c1, [])
      ∧ PostNotification c1 "B" (some 9)
          = some (c1, [{ target := 2, arg := { obj_ := some 9, tag_ := "B" } }])) := by
  refine ⟨⟨_, remove_eq c t, ?_, ?_⟩, ⟨_, remove_eq _ _, by decide, by decide⟩⟩
  · rw [post_eq]
    simp only [dispatch_keepOthers_same]
  · intro u hu
    refine ⟨_, post_eq c u payload, ?_⟩
    rw [post_eq]
    simp only [dispatch_keepOthers_other t u hu]

/-- Instance of C4 at the registry A/obs1, B/obs2, A/obs3 with `t` = A and
`u` = B: the post on B after the removal invokes obs2 exactly once. -/
theorem post_after_removeObservers_witness :
    ∃ c1, RemoveObservers { observers_ := [("A", some 1), ("B", some 2), ("A", some 3)] } "A"
        = some c1
      ∧ PostNotification c1 "A" (some 9) = some (c1, [])
      ∧ PostNotification c1 "B" (some 9)
          = some (c1, [{ target := 2, arg := { obj_ := some 9, tag_ := "B" } }]) := by
  obtain ⟨c1, h1, h2, h3⟩ :=
    (post_after_removeObservers
      { observers_ := [("A", some 1), ("B", some 2), ("A", some 3)] } "A" (some 9)).1
  obtain ⟨log, hb, ha⟩ := h3 "B" (by decide)
  have hlog : log = [{ target := 2, arg := { obj_ := some 9, tag_ := "B" } }] := by
    have : PostNotification { observers_ := [("A", some 1), ("B", some 2), ("A", some 3)] }
        "B" (some 9)
        = some ({ observers_ := [("A", some 1), ("B", some 2), ("A", some 3)] },
            [{ target := 2, arg := { obj_ := some 9, tag_ := "B" } }]) := by decide
    rw [this] at hb
    simpa using hb.symm
  exact ⟨c1, h1, h2, hlog ▸ ha⟩

/-- C5: for every registry, topic and payload, `PostNotification(topic, payload)`
returns, every invocation it performs is the call of the handle of a registry
entry whose topic equals `topic`, and an entry whose topic differs contributes
no invocation: taking it out of the registry leaves the invocation sequence as
it is. -/
theorem post_only_matching_topic (c : NotificationCenter) (topic : String) (payload : Ptr) :
    ∃ log, PostNotification c topic payload = some (c, log)
      ∧ (∀ k ∈ log, ∃ e ∈ c.observers_, e.1 = topic ∧ e.2 = some k.target)
      ∧ (∀ pre e post, c.observers_ = pre ++ e :: post → e.1 ≠ topic →
          PostNotification { observers_ := pre ++ post } topic payload
            = some ({ observers_ := pre ++ post }, log)) := by
  refine ⟨_, post_eq c topic payload, ?_, ?_⟩
  · intro k hk
    obtain ⟨e, he, h1, h2, _⟩ := dispatch_mem topic payload c.observers_ k hk
    exact ⟨e, he, h1, h2⟩
  · intro pre e post hc he
    rw [post_eq, hc]
    have : dispatchOf topic payload e = none := by simp [dispatchOf, he]
    simp [List.filterMap_append, List.filterMap_cons, this]

/-- Instance of C5: on A/obs1, B/obs2, A/obs3 a post on A performs two
invocations, of obs1 and obs3, and the registry without the B entry gives the
same two. -/
theorem post_only_matching_topic_witness :
    ∃ log, PostNotification { observers_ := [("A", some 1), ("B", some 2), ("A", some 3)] }
        "A" (some 9)
        = some ({ observers_ := [("A", some 1), ("B", some 2), ("A", some 3)] }, log)
      ∧ log.map (fun k => k.target) = [1, 3]
      ∧ PostNotification { observers_ := [("A", some 1), ("A", some 3)] } "A" (some 9)
        = some ({ observers_ := [("A", some 1), ("A", some 3)] }, log) := by
  obtain ⟨log, h1, _, h3⟩ :=
    post_only_matching_topic
      { observers_ := [("A", some 1), ("B", some 2), ("A", some 3)] } "A" (some 9)
  have h4 := h3 [("A", some 1)] ("B", some 2) [("A", some 3)] rfl (by decide)
  have hlog : log = [{ target := 1, arg := { obj_ := some 9, tag_ := "A" } },
      { target := 3, arg := { obj_ := some 9, tag_ := "A" } }] := by
    have : PostNotification { observers_ := [("A", some 1), ("B", some 2), ("A", some 3)] }
        "A" (some 9)
        = some ({ observers_ := [("A", some 1), ("B", some 2), ("A", some 3)] },
            [{ target := 1, arg := { obj_ := some 9, tag_ := "A" } },
             { target := 3, arg := { obj_ := some 9, tag_ := "A" } }]) := by decide
    rw [this] at h1
    simpa using h1.symm
  refine ⟨log, h1, ?_, h4⟩
  rw [hlog]
  rfl

/-- C6: `RemoveObservers(id)` returns the registry unchanged whenever the
registry is empty or holds no entry whose topic equals `id`. -/
theorem removeObservers_noop (c : NotificationCenter) (id : String)
    (h : c.observers_ = [] ∨ ∀ e ∈ c.observers_, e.1 ≠ id) :
    RemoveObservers c id = some c := by
  rw [remove_eq]
  have hall : ∀ e ∈ c.observers_, e.1 ≠ id := by
    rcases h with h | h
    · intro e he
      rw [h] at he
      cases he
    · exact h
  have : keepOthers id c.observers_ = c.observers_ := by
    unfold keepOthers
    rw [List.filter_eq_self]
    intro e he
    simpa using hall e he
  rw [this]

/-- Instances of C6: the empty registry, and a registry with entries of topic B
only, under removal of topic A. -/
theorem removeObservers_noop_witness :
    (({ observers_ := [] } : NotificationCenter).observers_ = []
        ∨ ∀ e ∈ ({ observers_ := [] } : NotificationCenter).observers_, e.1 ≠ "A")
    ∧ RemoveObservers { observers_ := [] } "A" = some { observers_ := [] }
    ∧ RemoveObservers { observers_ := [("B", some 2), ("B", none)] } "A"
        = some { observers_ := [("B", some 2), ("B", none)] } :=
  ⟨Or.inl rfl,
    removeObservers_noop { observers_ := [] } "A" (Or.inl rfl),
    removeObservers_noop { observers_ := [("B", some 2), ("B", none)] } "A"
      (Or.inr (by decide))⟩

/-- C7: for every registry `c`, topic `id` and handle `f` (empty topic, null
handle and an already present pair included), the registry after
`AddObserver(id, f)` is `c` with the entry `(id, f)` appended at the end: one
entry longer, the earlier entries unchanged in their positions, the new entry
last, nothing replaced or deduplicated. -/
theorem addObserver_appends (c : NotificationCenter) (id : String) (f : Ptr) :
    (AddObserver c id f).observers_ = c.observers_ ++ [(id, f)]
    ∧ (AddObserver c id f).observers_.length = c.observers_.length + 1
    ∧ (AddObserver c id f).observers_.take c.observers_.length = c.observers_
    ∧ (AddObserver c id f).observers_.drop c.observers_.length = [(id, f)]
    ∧ (∀ i e, c.observers_.get? i = some e → (AddObserver c id f).observers_.get? i = some e)
    ∧ (AddObserver (AddObserver c id f) id f).observers_ = c.observers_ ++ [(id, f), (id, f)]
    ∧ (AddObserver NotificationCenter.ctor "" none).observers_ = [("", none)] := by
  refine ⟨rfl, by simp [AddObserver], by simp [AddObserver], by simp [AddObserver], ?_,
    by simp [AddObserver], rfl⟩
  intro i e h
  have hi : i < c.observers_.length := by
    rcases Nat.lt_or_ge i c.observers_.length with hlt | hge
    · exact hlt
    · rw [List.get?_eq_none.mpr hge] at h
      cases h
  simp only [AddObserver, List.get?_eq_getElem?] at h ⊢
  rw [List.getElem?_append_left hi]
  exact h

/-- C8: no operation fails. For every registry, topic, handle and payload,
`RemoveObservers` completes, which in the embedding means that every erase
position it computes as current end minus a recorded distance satisfies
`0 ≤ position < current length`; `PostNotification` completes, so it never calls
through a null handle; and both still complete after an `AddObserver`, which is
a total function. Instances: the empty topic, a topic never registered, and a
topic with interleaved and repeated entries. -/
theorem operations_never_fail (c : NotificationCenter) (id : String) (f : Ptr)
    (payload : Ptr) :
    (∃ c1, RemoveObservers c id = some c1)
    ∧ (∃ r, RemoveObservers.eraseLoop c.observers_ (RemoveObservers.collect id c.observers_)
        = some r)
    ∧ (∃ log, PostNotification c id payload = some (c, log))
    ∧ (∃ c1, RemoveObservers (AddObserver c id f) id = some c1)
    ∧ (∃ log, PostNotification (AddObserver c id f) id payload
        = some (AddObserver c id f, log))
    ∧ RemoveObservers { observers_ := [("", none), ("A", some 1)] } ""
        = some { observers_ := [("A", some 1)] }
    ∧ PostNotification { observers_ := [("", none), ("A", some 1)] } "" none
        = some ({ observers_ := [("", none), ("A", some 1)] }, [])
    ∧ RemoveObservers { observers_ := [("A", some 1)] } "Z" = some { observers_ := [("A", some 1)] }
    ∧ RemoveObservers
        { observers_ := [("B", some 2), ("A", some 1), ("A", some 1), ("B", some 2), ("A", none)] }
        "A"
      = some { observers_ := [("B", some 2), ("B", some 2)] } := by
  refine ⟨⟨_, remove_eq c id⟩, ⟨_, by simpa using eraseLoop_collect id c.observers_ []⟩,
    ⟨_, post_eq c id payload⟩, ⟨_, remove_eq _ id⟩, ⟨_, post_eq _ id payload⟩,
    by decide, by decide, by decide, by decide⟩

/-- C9: for every registry, topic and non-null observer `o`, after two calls
`AddObserver(topic, o)` a post on `topic` performs the invocations it performed
on the original registry followed by two invocations of `o`, so `o` is invoked
two more times; on the empty registry these are the only two invocations; and
in general the number of invocations of a post on `topic` is the number of
entries with that topic and a non-null handle, counted with multiplicity. -/
theorem post_counts_registrations (c : NotificationCenter) (topic : String) (o : Nat)
    (payload : Ptr) :
    (∃ log0 log2, PostNotification c topic payload = some (c, log0)
      ∧ PostNotification (AddObserver (AddObserver c topic (some o)) topic (some o)) topic payload
          = some (AddObserver (AddObserver c topic (some o)) topic (some o), log2)
      ∧ log2 = log0 ++ [{ target := o, arg := { obj_ := payload, tag_ := topic } },
                        { target := o, arg := { obj_ := payload, tag_ := topic } }]
      ∧ log2.countP (fun k => decide (k.target = o))
          = log0.countP (fun k => decide (k.target = o)) + 2
      ∧ log0.length = c.observers_.countP (fun e => decide (e.1 = topic ∧ e.2 ≠ none)))
    ∧ PostNotification
        (AddObserver (AddObserver NotificationCenter.ctor topic (some o)) topic (some o))
        topic payload
      = some (AddObserver (AddObserver NotificationCenter.ctor topic (some o)) topic (some o),
          [{ target := o, arg := { obj_ := payload, tag_ := topic } },
           { target := o, arg := { obj_ := payload, tag_ := topic } }]) := by
  have hd : dispatchOf topic payload (topic, some o)
      = some { target := o, arg := { obj_ := payload, tag_ := topic } } := by
    simp [dispatchOf, Notification.ctor, Notification.set_object]
  have hlog2 : (AddObserver (AddObserver c topic (some o)) topic (some o)).observers_.filterMap
        (dispatchOf topic payload)
      = c.observers_.filterMap (dispatchOf topic payload)
        ++ [{ target := o, arg := { obj_ := payload, tag_ := topic } },
            { target := o, arg := { obj_ := payload, tag_ := topic } }] := by
    simp [AddObserver, List.filterMap_append, List.filterMap_cons, hd]
  refine ⟨⟨_, _, post_eq c topic payload, post_eq _ topic payload, hlog2, ?_, ?_⟩, ?_⟩
  · rw [hlog2, List.countP_append]
    simp [List.countP_cons]
  · generalize c.observers_ = v
    induction v with
    | nil => rfl
    | cons e rest ih =>
      obtain ⟨t, h⟩ := e
      by_cases ht : t = topic
      · cases h with
        | none => simpa [List.filterMap_cons, dispatchOf, ht, List.countP_cons] using ih
        | some a => simpa [List.filterMap_cons, dispatchOf, ht, List.countP_cons] using ih
      · simpa [List.filterMap_cons, dispatchOf, ht, List.countP_cons] using ih
  · rw [post_eq]
    simp [AddObserver, NotificationCenter.ctor, List.filterMap_cons, hd]

/-- C10: on every registry with no entry whose topic equals `topic`, the empty
registry included, `PostNotification(topic, payload)` returns, performs no
observer invocation and leaves the registry as it was. -/
theorem post_without_registrants (c : NotificationCenter) (topic : String) (payload : Ptr)
    (h : ∀ e ∈ c.observers_, e.1 ≠ topic) :
    PostNotification c topic payload = some (c, []) := by
  rw [post_eq]
  have : c.observers_.filterMap (dispatchOf topic payload) = [] := by
    rw [List.filterMap_eq_nil_iff]
    intro e he
    simp [dispatchOf, h e he]
  rw [this]

/-- Instances of C10: the empty registry, and a registry whose entries are all
of topic B, under a post on topic A. -/
theorem post_without_registrants_witness :
    (∀ e ∈ ({ observers_ := [("B", some 2), ("B", none)] } : NotificationCenter).observers_,
        e.1 ≠ "A")
    ∧ PostNotification { observers_ := [("B", some 2), ("B", none)] } "A" (some 9)
        = some ({ observers_ := [("B", some 2), ("B", none)] }, [])
    ∧ PostNotification NotificationCenter.ctor "A" (some 9) = some (NotificationCenter.ctor, []) :=
  ⟨by decide,
    post_without_registrants { observers_ := [("B", some 2), ("B", none)] } "A" (some 9)
      (by decide),
    post_without_registrants NotificationCenter.ctor "A" (some 9) (by
      intro e he
      cases he)⟩

/-- C11: on every registry, also one holding entries with a null handle,
`PostNotification(topic, payload)` returns; it skips the matching entries whose
handle is null and invokes each matching entry with a non-null handle once, in
registry order: read back as entries, the invocation sequence is the registry
filtered to topic equal to `topic` and handle not null, and every invocation
receives `Notification(topic, payload)`. Instance: A/null, A/obs1, B/null,
A/null, A/obs3 under a post on A invokes obs1 then obs3. -/
theorem post_skips_null_handles (c : NotificationCenter) (topic : String) (payload : Ptr) :
    (∃ log, PostNotification c topic payload = some (c, log)
      ∧ log.map (fun k => ((topic, some k.target) : observer_))
          = c.observers_.filter (fun e => decide (e.1 = topic ∧ e.2 ≠ none))
      ∧ ∀ k ∈ log, k.arg = Notification.ctor topic payload)
    ∧ PostNotification
        { observers_ := [("A", none), ("A", some 1), ("B", none), ("A", none), ("A", some 3)] }
        "A" (some 9)
      = some ({ observers_ :=
                [("A", none), ("A", some 1), ("B", none), ("A", none), ("A", some 3)] },
          [{ target := 1, arg := { obj_ := some 9, tag_ := "A" } },
           { target := 3, arg := { obj_ := some 9, tag_ := "A" } }]) := by
  refine ⟨⟨_, post_eq c topic payload, dispatch_entries topic payload c.observers_, ?_⟩,
    by decide⟩
  intro k hk
  obtain ⟨_, _, _, _, h⟩ := dispatch_mem topic payload c.observers_ k hk
  exact h

/-- C12: `Notification` is a faithful data carrier. The default-constructed one
has an empty tag and a null object; `Notification(t, b)` has `get_tag()` equal to
`t` and `get_object()` equal to `b`; `set_tag(t)` changes the tag to `t` and leaves
the object; `set_object(b)` changes the object to `b` and leaves the tag; any
string and any reference, the empty string and null included, is accepted. The
accessors are `const` members, embedded as functions of the value alone. -/
theorem notification_is_carrier (n : Notification) (t : String) (b : Ptr) :
    Notification.ctor0.get_tag = "" ∧ Notification.ctor0.get_object = none
    ∧ (Notification.ctor t b).get_tag = t ∧ (Notification.ctor t b).get_object = b
    ∧ (n.set_tag t).get_tag = t ∧ (n.set_tag t).get_object = n.get_object
    ∧ (n.set_object b).get_object = b ∧ (n.set_object b).get_tag = n.get_tag
    ∧ (Notification.ctor "" none).get_tag = "" ∧ (Notification.ctor "" none).get_object = none
    ∧ ((n.set_tag "").set_object none) = Notification.ctor0 :=
  ⟨rfl, rfl, rfl, rfl, rfl, rfl, rfl, rfl, rfl, rfl, rfl⟩

/-- C13 (the code departs from it): `AddObserver` and `PostNotification` perform
every access to `observers_` with the lock held, but `RemoveObservers` does not,
on any registry: its first access, the test `observers_.size() < 1`, is a read
made before the `lock_guard` is constructed. The accesses that follow the test
are all made with the lock held. -/
theorem removeObservers_reads_before_lock (c : NotificationCenter) (id : String) :
    guarded false AddObserver.accesses = true
    ∧ guarded false (PostNotification.accesses c) = true
    ∧ (RemoveObservers.accesses c id).head? = some Access.read
    ∧ guarded false (RemoveObservers.accesses c id) = false
    ∧ guarded false (RemoveObservers.accesses c id).tail = true
    ∧ RemoveObservers.accesses NotificationCenter.ctor "A" = [Access.read] := by
  refine ⟨rfl, ?_, rfl, rfl, ?_, rfl⟩
  · have hacc : PostNotification.accesses c
        = Access.acquire :: Access.read
            :: (c.observers_.map (fun _ => Access.read) ++ [Access.release]) := by
      simp [PostNotification.accesses]
    rw [hacc, guarded, guarded, guarded_reads]
    rfl
  · unfold RemoveObservers.accesses
    by_cases h : c.observers_.length < 1
    · simp [h, guarded]
    · simp only [List.tail_cons, if_neg h, List.append_assoc, List.cons_append,
        List.nil_append, guarded, Bool.true_and]
      rw [guarded_reads, guarded_erases]
      rfl

/-- C14: the registry acquires no entry on its own. From the empty registry,
every sequence of `AddObserver`, `PostNotification` and `RemoveObservers` calls
runs to completion, and every entry of the registry reached was passed, topic
and handle, to an `AddObserver` call of the sequence; so an entry with a null
handle was added with a null handle, and when no call adds a null handle no
entry has one. -/
theorem registry_entries_were_added (ops : List Op) :
    ∃ c, runOps NotificationCenter.ctor ops = some c
      ∧ (∀ e ∈ c.observers_, Op.add e.1 e.2 ∈ ops)
      ∧ (∀ e ∈ c.observers_, e.2 = none → Op.add e.1 none ∈ ops)
      ∧ ((∀ id, Op.add id none ∉ ops) → ∀ e ∈ c.observers_, e.2 ≠ none) := by
  obtain ⟨c, hrun, hent⟩ := runOps_entries ops NotificationCenter.ctor
  have hadd : ∀ e ∈ c.observers_, Op.add e.1 e.2 ∈ ops := by
    intro e he
    rcases hent e he with h | h
    · cases h
    · exact h
  refine ⟨c, hrun, hadd, ?_, ?_⟩
  · intro e he hnull
    have := hadd e he
    rwa [hnull] at this
  · intro hno e he hnull
    have := hadd e he
    rw [hnull] at this
    exact hno e.1 this

/-- Instance of C14: after add A/obs1, add B/obs2, post A, remove A, add A/obs3,
post B, the registry is B/obs2, A/obs3 and no entry has a null handle. -/
theorem registry_entries_were_added_witness :
    ∃ c, runOps NotificationCenter.ctor
        [Op.add "A" (some 1), Op.add "B" (some 2), Op.post "A" (some 9), Op.remove "A",
         Op.add "A" (some 3), Op.post "B" none] = some c
      ∧ c.observers_ = [("B", some 2), ("A", some 3)]
      ∧ ∀ e ∈ c.observers_, e.2 ≠ none := by
  obtain ⟨c, hrun, _, _, h⟩ :=
    registry_entries_were_added
      [Op.add "A" (some 1), Op.add "B" (some 2), Op.post "A" (some 9), Op.remove "A",
       Op.add "A" (some 3), Op.post "B" none]
  have hc : runOps NotificationCenter.ctor
      [Op.add "A" (some 1), Op.add "B" (some 2), Op.post "A" (some 9), Op.remove "A",
       Op.add "A" (some 3), Op.post "B" none]
      = some { observers_ := [("B", some 2), ("A", some 3)] } := by decide
  refine ⟨c, hrun, ?_, h (by intro id; simp)⟩
  rw [hc] at hrun
  cases hrun
  rfl

/-- C15: `PostNotification` does not modify the registry. For every registry,
topic and payload the call returns the registry it was given, so a second post
on the same topic performs the same invocation sequence as the first. -/
theorem post_leaves_registry (c : NotificationCenter) (topic : String) (payload : Ptr) :
    ∃ c1 log, PostNotification c topic payload = some (c1, log)
      ∧ c1 = c
      ∧ c1.observers_ = c.observers_
      ∧ PostNotification c1 topic payload = some (c1, log) := by
  exact ⟨c, _, post_eq c topic payload, rfl, rfl, post_eq c topic payload⟩

/-- C16: `RemoveObservers` is idempotent. For every registry and topic `id` the
call returns a registry on which a second `RemoveObservers(id)` returns that
same registry. -/
theorem removeObservers_idempotent (c : NotificationCenter) (id : String) :
    ∃ c1, RemoveObservers c id = some c1 ∧ RemoveObservers c1 id = some c1 := by
  refine ⟨_, remove_eq c id, ?_⟩
  rw [remove_eq]
  simp only [keepOthers_idem]

/-- C17: `RemoveObservers` undoes `AddObserver` of the same topic. For every
registry `c`, topic `id` and handle `f`, `RemoveObservers(id)` after
`AddObserver(id, f)` returns the registry that `RemoveObservers(id)` returns on
`c`; when `c` has no entry of topic `id`, that registry is `c`. -/
theorem removeObservers_undoes_addObserver (c : NotificationCenter) (id : String) (f : Ptr) :
    (∃ c1, RemoveObservers c id = some c1 ∧ RemoveObservers (AddObserver c id f) id = some c1)
    ∧ ((∀ e ∈ c.observers_, e.1 ≠ id) → RemoveObservers (AddObserver c id f) id = some c) := by
  have key : RemoveObservers (AddObserver c id f) id
      = some { observers_ := keepOthers id c.observers_ } := by
    rw [remove_eq]
    simp only [AddObserver, keepOthers_append_same]
  refine ⟨⟨_, remove_eq c id, key⟩, ?_⟩
  intro h
  rw [key, keepOthers_eq_self id c.observers_ h]

/-- Instance of C17: on B/obs2, adding A/obs1 and removing A gives back B/obs2;
on A/obs3, B/obs2 it gives B/obs2, as removing A alone does. -/
theorem removeObservers_undoes_addObserver_witness :
    RemoveObservers (AddObserver { observers_ := [("B", some 2)] } "A" (some 1)) "A"
      = some { observers_ := [("B", some 2)] }
    ∧ ∃ c1, RemoveObservers { observers_ := [("A", some 3), ("B", some 2)] } "A" = some c1
        ∧ RemoveObservers
            (AddObserver { observers_ := [("A", some 3), ("B", some 2)] } "A" (some 1)) "A"
          = some c1 :=
  ⟨(removeObservers_undoes_addObserver { observers_ := [("B", some 2)] } "A" (some 1)).2
      (by decide),
    (removeObservers_undoes_addObserver
      { observers_ := [("A", some 3), ("B", some 2)] } "A" (some 1)).1⟩

end ds
